import Mathlib

/-!
Verification of the NightDriverStrip JSON serializer module
(`include/jsonserializer.h`): a shallow embedding of the deferred-write
coordinator (`JSONWriter`), the ArduinoJson converters for `CRGB` and
`CRGBPalette16`, and the `IJSONSerializable` contract, with theorems about
the spec's testable properties.
-/

namespace NightDriver

/-! ### Structured-document (JSON) value model

`JsonVariant` values as used by the converters: numbers and arrays are the
only shapes the code under study inspects; everything else is collapsed
into `null`. -/

inductive JVal where
  | null : JVal
  | num : Nat → JVal
  | arr : List JVal → JVal

/-- `src.is<JsonArrayConst>()`. -/
def JVal.isArr : JVal → Bool
  | .arr _ => true
  | _ => false

/-- `src.as<JsonArrayConst>()`: a non-array converts to the null array,
which iterates as empty. -/
def JVal.asArr : JVal → List JVal
  | .arr xs => xs
  | _ => []

/-- `src.as<uint32_t>()`: a JSON number read back as a 32-bit unsigned
integer; non-numeric values read as 0. -/
def JVal.asUInt32 : JVal → Nat
  | .num n => n % 4294967296
  | _ => 0

/-! ### CRGB and its ArduinoJson converter -/

/-- FastLED's `CRGB`: three 8-bit channels. Channels are modelled as `Nat`
with the `uint8_t` range invariant stated separately as `CRGB.wf`. -/
structure CRGB where
  r : Nat
  g : Nat
  b : Nat
deriving Repr, DecidableEq

/-- The `uint8_t` range invariant of the three channels. -/
def CRGB.wf (c : CRGB) : Prop := c.r < 256 ∧ c.g < 256 ∧ c.b < 256

instance (c : CRGB) : Decidable c.wf := by
  unfold CRGB.wf
  infer_instance

/-- `Converter<CRGB>::toJson` packs the color as
`(uint32_t)((color.r << 16) | (color.g << 8) | color.b)`.
The `%` models the cast to `uint32_t`. -/
def crgbPackVal (c : CRGB) : Nat :=
  (((c.r <<< 16) ||| (c.g <<< 8)) ||| c.b) % 4294967296

/-- `Converter<CRGB>::toJson`: the value stored into the destination
variant (`dst.set` of the packed integer always succeeds for a number). -/
def CRGB.toJson (c : CRGB) : JVal := .num (crgbPackVal c)

/-- Modelled from the spec: the `CRGB(uint32_t)` constructor used by
`Converter<CRGB>::fromJson` lives in the external FastLED library, not in
this repository's sources. Per the spec, conversion back "extracts the
three channels from that integer": red from bits 16-23, green from bits
8-15, blue from bits 0-7. -/
def crgbOfUInt32 (v : Nat) : CRGB :=
  ⟨(v >>> 16) % 256, (v >>> 8) % 256, v % 256⟩

/-- `Converter<CRGB>::fromJson`: `CRGB(src.as<uint32_t>())`. -/
def CRGB.fromJson (src : JVal) : CRGB := crgbOfUInt32 src.asUInt32

/-- Lexicographic order on (r, g, b) triples, the order the spec calls the
pack/unpack bijection order-preserving for. -/
def crgbLexLt (c d : CRGB) : Prop :=
  c.r < d.r ∨ (c.r = d.r ∧ (c.g < d.g ∨ (c.g = d.g ∧ c.b < d.b)))

/-! ### CRGBPalette16 and its ArduinoJson converter -/

/-- FastLED's `CRGBPalette16`: 16 CRGB entries. The fixed size is stated
as a hypothesis (`entries.length = 16`) where a theorem needs it. -/
structure CRGBPalette16 where
  entries : List CRGB
deriving Repr, DecidableEq

/-- `Converter<CRGBPalette16>::toJson`: an array of the 16 entries,
serialized in index order via `Converter<CRGB>`. -/
def paletteToJson (p : CRGBPalette16) : JVal :=
  .arr (p.entries.map CRGB.toJson)

/-- Stand-in for the indeterminate contents of a stack slot of the local
`CRGB colors[16]` buffer that `fromJson` never writes (the CRGB default
constructor leaves the channels uninitialized). Theorems about `fromJson`
only draw conclusions on inputs that write all 16 slots, so no result
depends on this placeholder's value. -/
def uninitColor : CRGB := ⟨0, 0, 0⟩

/-- `Converter<CRGBPalette16>::fromJson`: iterates the source array,
writing `colors[colorIndex++]` for every element, then constructs the
palette from the first 16 slots. There is no bound check in the loop: the
destination indices actually written are `paletteFromJsonWrites`. With
fewer than 16 source entries the remaining slots keep their indeterminate
contents; with more than 16 the real code writes past the buffer
(undefined behavior), which this value-level model truncates — the
out-of-bounds writes themselves are recorded by `paletteFromJsonWrites`. -/
def paletteFromJson (src : JVal) : CRGBPalette16 :=
  ⟨((src.asArr.map CRGB.fromJson) ++ List.replicate 16 uninitColor).take 16⟩

/-- The sequence of destination indices `fromJson` writes into its local
`CRGB colors[16]` buffer: one write at `colorIndex++` per element of the
source array, with no bound check. -/
def paletteFromJsonWrites (src : JVal) : List Nat :=
  List.range src.asArr.length

/-- `Converter<CRGBPalette16>::checkJson`:
`src.is<JsonArrayConst>() && src.as<JsonArrayConst>().size() == 16`. -/
def paletteCheckJson (src : JVal) : Bool :=
  src.isArr && (src.asArr.length == 16)

/-! ### IJSONSerializable -/

/-- The default body of the virtual
`IJSONSerializable::DeserializeFromJSON`: `{ return false; }`. The object
(of arbitrary state type `σ`) is returned untouched alongside the result. -/
def DeserializeFromJSON {σ : Type} (s : σ) (_doc : JVal) : Bool × σ :=
  (false, s)

/-! ### JSONWriter: registry -/

/-- `JSONWriter::WriterEntry`: a pending flag and the registered writer
closure. Closures are opaque to the coordinator, so a writer is modelled
by an identifying payload. -/
structure WriterEntry where
  flag : Bool
  writer : Nat
deriving Repr, DecidableEq

/-- `WriterEntry(std::function<void()> writer)`: the `flag` member keeps
its in-class initializer `false`. -/
def mkWriterEntry (w : Nat) : WriterEntry := ⟨false, w⟩

/-- `WriterEntry(WriterEntry&& entry) : WriterEntry(entry.writer)`: the
move constructor delegates to the main constructor, so the new entry's
flag is initialized `false` regardless of the source entry's flag. -/
def moveWriterEntry (e : WriterEntry) : WriterEntry := mkWriterEntry e.writer

/-- `JSONWriter::RegisterWriter`: `writers.emplace_back(writer)` then
`return writers.size() - 1`. -/
def registerWriter (ws : List WriterEntry) (w : Nat) : List WriterEntry × Nat :=
  (ws ++ [mkWriterEntry w], (ws ++ [mkWriterEntry w]).length - 1)

/-- `RegisterWriter` on the path where `emplace_back` reallocates the
vector's buffer: every existing entry is move-constructed into the new
buffer (via `moveWriterEntry`) before the new entry is appended. -/
def reallocRegisterWriter (ws : List WriterEntry) (w : Nat) : List WriterEntry × Nat :=
  (ws.map moveWriterEntry ++ [mkWriterEntry w], (ws.map moveWriterEntry ++ [mkWriterEntry w]).length - 1)

/-- The indices returned by a sequence of `RegisterWriter` calls starting
from registry `ws`. -/
def regIndices : List WriterEntry → List Nat → List Nat
  | _, [] => []
  | ws, w :: rest => (registerWriter ws w).2 :: regIndices (registerWriter ws w).1 rest

/-- The registry obtained by registering the given writers, in order,
starting from the empty registry. -/
def regAll (ws : List Nat) : List WriterEntry :=
  ws.foldl (fun acc w => (registerWriter acc w).1) []

/-- `writers[index].flag = true`. -/
def setFlagAt : List WriterEntry → Nat → List WriterEntry
  | [], _ => []
  | e :: es, 0 => ⟨true, e.writer⟩ :: es
  | e :: es, i + 1 => e :: setFlagAt es i

/-- `entry.flag = false` at the given index. -/
def clearFlagAt : List WriterEntry → Nat → List WriterEntry
  | [], _ => []
  | e :: es, 0 => ⟨false, e.writer⟩ :: es
  | e :: es, i + 1 => e :: clearFlagAt es i

/-- The pending flag of the entry at index `i` (false when out of range). -/
def entryFlag (ws : List WriterEntry) (i : Nat) : Bool :=
  (ws.getD i (mkWriterEntry 0)).flag

/-! ### JSONWriter: coordinator state machine

The shared state between `FlagWriter` callers and the
`WriterInvokerEntryPoint` task: the registry, the binary semaphore, and
the worker's position in its loop. The `trace` records, in order, the
index of every entry whose `writer()` the task has invoked; `wakes`
counts completed `xSemaphoreTake` calls. -/

/-- The worker task's position inside `WriterInvokerEntryPoint`:
blocked in `xSemaphoreTake`; about to test `entry.flag` at index `i`;
inside `entry.writer()` at index `i`; or about to run `entry.flag = false`
at index `i`. -/
inductive WPC where
  | blocked : WPC
  | scanning : Nat → WPC
  | running : Nat → WPC
  | clearing : Nat → WPC
deriving Repr, DecidableEq

structure MState where
  writers : List WriterEntry
  sem : Bool
  pc : WPC
  wakes : Nat
  trace : List Nat
deriving Repr, DecidableEq

/-- `JSONWriter::FlagWriter`, callable from any task at any time:
out-of-range indices return immediately; otherwise the entry's flag is
set and `xSemaphoreGive` raises the binary semaphore (already-raised
stays raised: the signal is non-queuing). -/
def FlagWriter (s : MState) (idx : Nat) : MState :=
  if s.writers.length ≤ idx then s
  else { s with writers := setFlagAt s.writers idx, sem := true }

/-- One atomic step of `WriterInvokerEntryPoint`. A blocked worker can
step only when the semaphore is raised (`xSemaphoreTake` with
`portMAX_DELAY` consumes it); `scanning i` reads `entry.flag`;
`running i` is `entry.writer()` returning (its completion is appended to
the trace); `clearing i` is the plain store `entry.flag = false`. Past
the last index the inner loop ends and the worker blocks again. -/
def workerStep (s : MState) : Option MState :=
  match s.pc with
  | .blocked =>
    if s.sem then
      some { s with sem := false, pc := .scanning 0, wakes := s.wakes + 1 }
    else
      none
  | .scanning i =>
    match s.writers[i]? with
    | none => some { s with pc := .blocked }
    | some e => some { s with pc := if e.flag then .running i else .scanning (i + 1) }
  | .running i => some { s with trace := s.trace ++ [i], pc := .clearing i }
  | .clearing i => some { s with writers := clearFlagAt s.writers i, pc := .scanning (i + 1) }

/-- An interleaving of worker steps and `FlagWriter` calls from other
tasks. -/
inductive Step where
  | work : Step
  | flag : Nat → Step
deriving Repr, DecidableEq

/-- Run a concrete schedule: `work` advances the worker when it is
enabled (a blocked worker with no signal stays blocked); `flag i` is a
concurrent `FlagWriter(i)` call. -/
def runSched : MState → List Step → MState
  | s, [] => s
  | s, .work :: rest => runSched ((workerStep s).getD s) rest
  | s, .flag i :: rest => runSched (FlagWriter s i) rest

/-- `n` scheduler slots given only to the worker (no further `FlagWriter`
calls). -/
def runWorker : MState → Nat → MState
  | s, 0 => s
  | s, n + 1 => runWorker ((workerStep s).getD s) n

/-- The inner `for (auto &entry : pObj->writers)` loop of
`WriterInvokerEntryPoint` run to completion without interleaving, on the
suffix of the registry starting at index `i`: returns the updated entries
and, in order, the indices whose pending `writer()` was executed (and
whose flag was then cleared). -/
def scanFrom : Nat → List WriterEntry → List WriterEntry × List Nat
  | _, [] => ([], [])
  | i, e :: es =>
    if e.flag then
      ((⟨false, e.writer⟩ : WriterEntry) :: (scanFrom (i + 1) es).1, i :: (scanFrom (i + 1) es).2)
    else
      (e :: (scanFrom (i + 1) es).1, (scanFrom (i + 1) es).2)

/-- One full iteration of the outer `for(;;)` loop of
`WriterInvokerEntryPoint`, run without interleaving: a blocked worker
consumes the raised semaphore, scans the whole registry and blocks again.
`none` when the worker is not blocked at `xSemaphoreTake` or the
semaphore is down (the take blocks forever until a `FlagWriter` call). -/
def wakeCycle (s : MState) : Option MState :=
  match s.pc, s.sem with
  | .blocked, true =>
    some { writers := (scanFrom 0 s.writers).1, sem := false, pc := .blocked,
           wakes := s.wakes + 1, trace := s.trace ++ (scanFrom 0 s.writers).2 }
  | _, _ => none

/-! ### JSONWriter: dispatch scan with failing actions

`entry.writer()` is a `std::function<void()>` call: a writer that fails
by returning normally is indistinguishable, to the loop, from a
successful one; a writer that throws propagates out of the loop body,
which contains no try/catch. `EWriterEntry.throws` records which behavior
invoking a given writer has. -/

structure EWriterEntry where
  flag : Bool
  writer : Nat
  throws : Bool
deriving Repr, DecidableEq

/-- The inner scan loop with failure behavior made explicit, on the
suffix starting at index `i`. Returns: the indices whose `writer()` was
invoked, in order; whether an exception escaped the loop (there is no
per-entry catch, so a throw ends the scan, skips the `entry.flag = false`
of the throwing entry, and terminates the task — the outer `for(;;)`
never runs again); and the resulting entries. -/
def scanExcFrom : Nat → List EWriterEntry → List Nat × Bool × List EWriterEntry
  | _, [] => ([], false, [])
  | i, e :: es =>
    if e.flag then
      if e.throws then
        ([i], true, e :: es)
      else
        (i :: (scanExcFrom (i + 1) es).1, (scanExcFrom (i + 1) es).2.1,
          (⟨false, e.writer, e.throws⟩ : EWriterEntry) :: (scanExcFrom (i + 1) es).2.2)
    else
      ((scanExcFrom (i + 1) es).1, (scanExcFrom (i + 1) es).2.1,
        e :: (scanExcFrom (i + 1) es).2.2)

/-- The indices of the flagged entries of `ws`, offset by `i`. -/
def flaggedIdx : Nat → List EWriterEntry → List Nat
  | _, [] => []
  | i, e :: es => if e.flag then i :: flaggedIdx (i + 1) es else flaggedIdx (i + 1) es

/-- Whether the entry at index `j` is flagged and its writer throws when
invoked (false when out of range). -/
def throwingAt (ws : List EWriterEntry) (j : Nat) : Bool :=
  (ws.getD j ⟨false, 0, false⟩).flag && (ws.getD j ⟨false, 0, false⟩).throws

/-! ### Concrete data for the lost-update scenario (claim C2) -/

/-- One registered writer, worker blocked, semaphore down. -/
def lostUpdateState0 : MState :=
  ⟨[⟨false, 5⟩], false, .blocked, 0, []⟩

/-- The interleaving that loses an update: `FlagWriter(0)`; the worker
wakes, sees the flag and begins `writer()`; `FlagWriter(0)` is called
again while the writer is executing; the writer returns and the worker
runs `entry.flag = false`, clobbering the concurrent set; the scan ends;
the worker wakes once more from the second `xSemaphoreGive` but finds no
flag set and blocks for good. -/
def lostUpdateSched : List Step :=
  [.flag 0, .work, .work, .flag 0, .work, .work, .work, .work, .work, .work]

/-! ## Supporting lemmas -/

theorem setFlagAt_length : ∀ (ws : List WriterEntry) (i : Nat),
    (setFlagAt ws i).length = ws.length := by
  intro ws
  induction ws with
  | nil => intro i; rfl
  | cons e es ih =>
    intro i
    cases i with
    | zero => rfl
    | succ j => simp [setFlagAt, ih j]

theorem setFlagAt_writer : ∀ (ws : List WriterEntry) (i : Nat),
    (setFlagAt ws i).map WriterEntry.writer = ws.map WriterEntry.writer := by
  intro ws
  induction ws with
  | nil => intro i; rfl
  | cons e es ih =>
    intro i
    cases i with
    | zero => rfl
    | succ j => simp [setFlagAt, ih j]

theorem FlagWriter_preserve (s : MState) (i : Nat) :
    (FlagWriter s i).pc = s.pc ∧ (FlagWriter s i).wakes = s.wakes ∧
    (FlagWriter s i).trace = s.trace ∧
    (FlagWriter s i).writers.length = s.writers.length := by
  unfold FlagWriter
  split
  · exact ⟨rfl, rfl, rfl, rfl⟩
  · exact ⟨rfl, rfl, rfl, setFlagAt_length s.writers i⟩

theorem FlagWriter_sem_mono (s : MState) (i : Nat) (h : s.sem = true) :
    (FlagWriter s i).sem = true := by
  unfold FlagWriter
  split
  · exact h
  · rfl

theorem FlagWriter_sem_valid (s : MState) (i : Nat) (h : i < s.writers.length) :
    (FlagWriter s i).sem = true := by
  unfold FlagWriter
  rw [if_neg (by omega)]

theorem flagFold_preserve : ∀ (fs : List Nat) (s : MState),
    (fs.foldl FlagWriter s).pc = s.pc ∧ (fs.foldl FlagWriter s).wakes = s.wakes ∧
    (fs.foldl FlagWriter s).trace = s.trace ∧
    (fs.foldl FlagWriter s).writers.length = s.writers.length := by
  intro fs
  induction fs with
  | nil => intro s; exact ⟨rfl, rfl, rfl, rfl⟩
  | cons f rest ih =>
    intro s
    have h1 := FlagWriter_preserve s f
    have h2 := ih (FlagWriter s f)
    simp only [List.foldl_cons]
    exact ⟨h2.1.trans h1.1, (h2.2.1).trans h1.2.1, (h2.2.2.1).trans h1.2.2.1,
      (h2.2.2.2).trans h1.2.2.2⟩

theorem flagFold_sem : ∀ (fs : List Nat) (s : MState),
    ((∃ i ∈ fs, i < s.writers.length) ∨ s.sem = true) →
    (fs.foldl FlagWriter s).sem = true := by
  intro fs
  induction fs with
  | nil =>
    intro s h
    rcases h with ⟨i, hi, _⟩ | h
    · exact absurd hi (List.not_mem_nil i)
    · exact h
  | cons f rest ih =>
    intro s h
    simp only [List.foldl_cons]
    apply ih
    rcases h with ⟨i, hi, hlt⟩ | hs
    · rcases List.mem_cons.mp hi with rfl | hmem
      · exact Or.inr (FlagWriter_sem_valid s i hlt)
      · exact Or.inl ⟨i, hmem, by rw [(FlagWriter_preserve s f).2.2.2]; exact hlt⟩
    · exact Or.inr (FlagWriter_sem_mono s f hs)

theorem runWorker_stuck (s : MState) (h : workerStep s = none) :
    ∀ n, runWorker s n = s := by
  intro n
  induction n with
  | zero => rfl
  | succ n ih =>
    show runWorker ((workerStep s).getD s) n = s
    rw [h]
    exact ih

theorem scanFrom_ge : ∀ (ws : List WriterEntry) (k j : Nat),
    j ∈ (scanFrom k ws).2 → k ≤ j := by
  intro ws
  induction ws with
  | nil => intro k j h; simp [scanFrom] at h
  | cons e es ih =>
    intro k j h
    cases he : e.flag with
    | true =>
      simp [scanFrom, he] at h
      rcases h with rfl | h
      · exact Nat.le_refl j
      · exact Nat.le_of_succ_le (ih (k + 1) j h)
    | false =>
      simp [scanFrom, he] at h
      exact Nat.le_of_succ_le (ih (k + 1) j h)

theorem scanFrom_count : ∀ (ws : List WriterEntry) (k i : Nat),
    List.count (k + i) (scanFrom k ws).2 = if entryFlag ws i then 1 else 0 := by
  intro ws
  induction ws with
  | nil =>
    intro k i
    simp [scanFrom, entryFlag, mkWriterEntry, List.getD]
  | cons e es ih =>
    intro k i
    have hnot : List.count k (scanFrom (k + 1) es).2 = 0 := by
      rw [List.count_eq_zero]
      intro hmem
      have := scanFrom_ge es (k + 1) k hmem
      omega
    cases i with
    | zero =>
      cases he : e.flag with
      | true => simp [scanFrom, he, entryFlag, List.count_cons, hnot]
      | false => simp [scanFrom, he, entryFlag, hnot]
    | succ j =>
      have harith : k + (j + 1) = (k + 1) + j := by omega
      have htail : entryFlag (e :: es) (j + 1) = entryFlag es j := by
        simp [entryFlag]
      cases he : e.flag with
      | true =>
        have hne : k + (j + 1) ≠ k := by omega
        have hne2 : ¬ k = k + 1 + j := by omega
        simp [scanFrom, he, List.count_cons, hne, hne2, htail, harith, ih (k + 1) j]
      | false =>
        simp [scanFrom, he, htail, harith, ih (k + 1) j]

theorem scanFrom_result_flag : ∀ (ws : List WriterEntry) (k : Nat),
    ∀ e ∈ (scanFrom k ws).1, e.flag = false := by
  intro ws
  induction ws with
  | nil => intro k e h; simp [scanFrom] at h
  | cons a as ih =>
    intro k e h
    cases ha : a.flag with
    | true =>
      simp [scanFrom, ha] at h
      rcases h with rfl | h
      · rfl
      · exact ih (k + 1) e h
    | false =>
      simp [scanFrom, ha] at h
      rcases h with rfl | h
      · exact ha
      · exact ih (k + 1) e h

theorem wakeCycle_of_blocked (s : MState) (hpc : s.pc = WPC.blocked) (hsem : s.sem = true) :
    wakeCycle s = some ⟨(scanFrom 0 s.writers).1, false, WPC.blocked, s.wakes + 1,
      s.trace ++ (scanFrom 0 s.writers).2⟩ := by
  unfold wakeCycle
  rw [hpc, hsem]

theorem runWorker_step (s s' : MState) (n : Nat) (h : workerStep s = some s') :
    runWorker s (n + 1) = runWorker s' n := by
  show runWorker ((workerStep s).getD s) n = runWorker s' n
  rw [h]
  rfl

theorem clearFlagAt_append : ∀ (done : List WriterEntry) (e : WriterEntry)
    (rest : List WriterEntry),
    clearFlagAt (done ++ e :: rest) done.length
      = done ++ (⟨false, e.writer⟩ : WriterEntry) :: rest := by
  intro done
  induction done with
  | nil => intro e rest; rfl
  | cons d ds ih =>
    intro e rest
    simp only [List.cons_append, List.length_cons, clearFlagAt, List.append_eq]
    rw [ih e rest]

/-- Running the worker alone from the middle of a scan — the entries in
`done` already examined, those in `rest` still to go — finishes the scan
exactly as the pure `scanFrom` describes and blocks. -/
theorem scan_machine : ∀ (rest done : List WriterEntry) (sem : Bool) (wk : Nat)
    (tr : List Nat),
    ∃ n, runWorker ⟨done ++ rest, sem, .scanning done.length, wk, tr⟩ n
      = ⟨done ++ (scanFrom done.length rest).1, sem, .blocked, wk,
          tr ++ (scanFrom done.length rest).2⟩ := by
  intro rest
  induction rest with
  | nil =>
    intro done sem wk tr
    refine ⟨1, ?_⟩
    have hnone : (done ++ ([] : List WriterEntry))[done.length]? = none := by
      apply List.getElem?_eq_none
      simp
    have hstep : workerStep ⟨done ++ [], sem, .scanning done.length, wk, tr⟩
        = some ⟨done ++ [], sem, .blocked, wk, tr⟩ := by
      simp only [workerStep]
      rw [hnone]
    rw [runWorker_step _ _ 0 hstep]
    simp [runWorker, scanFrom]
  | cons e rest ih =>
    intro done sem wk tr
    have hget : (done ++ e :: rest)[done.length]? = some e := by
      rw [List.getElem?_append_right (Nat.le_refl _)]
      simp
    cases he : e.flag with
    | false =>
      have hstep : workerStep ⟨done ++ e :: rest, sem, .scanning done.length, wk, tr⟩
          = some ⟨done ++ e :: rest, sem, .scanning (done.length + 1), wk, tr⟩ := by
        simp only [workerStep]
        rw [hget]
        simp [he]
      obtain ⟨n, hn⟩ := ih (done ++ [e]) sem wk tr
      refine ⟨n + 1, ?_⟩
      rw [runWorker_step _ _ n hstep]
      simp only [List.append_assoc, List.singleton_append, List.length_append,
        List.length_singleton] at hn
      simp only [scanFrom, he, if_neg (by simp : ¬ (false = true))]
      exact hn
    | true =>
      have hstep1 : workerStep ⟨done ++ e :: rest, sem, .scanning done.length, wk, tr⟩
          = some ⟨done ++ e :: rest, sem, .running done.length, wk, tr⟩ := by
        simp only [workerStep]
        rw [hget]
        simp [he]
      have hstep2 : workerStep ⟨done ++ e :: rest, sem, .running done.length, wk, tr⟩
          = some ⟨done ++ e :: rest, sem, .clearing done.length, wk,
              tr ++ [done.length]⟩ := rfl
      have hstep3 : workerStep ⟨done ++ e :: rest, sem, .clearing done.length, wk,
            tr ++ [done.length]⟩
          = some ⟨done ++ (⟨false, e.writer⟩ : WriterEntry) :: rest, sem,
              .scanning (done.length + 1), wk, tr ++ [done.length]⟩ := by
        simp only [workerStep]
        rw [clearFlagAt_append]
      obtain ⟨n, hn⟩ := ih (done ++ [(⟨false, e.writer⟩ : WriterEntry)]) sem wk
        (tr ++ [done.length])
      refine ⟨n + 1 + 1 + 1, ?_⟩
      rw [runWorker_step _ _ (n + 1 + 1) hstep1, runWorker_step _ _ (n + 1) hstep2,
        runWorker_step _ _ n hstep3]
      simp only [List.append_assoc, List.singleton_append, List.length_append,
        List.length_singleton] at hn
      simp only [scanFrom, he, if_pos rfl]
      exact hn

/-- `wakeCycle` agrees with the interleaving machine: a blocked worker
with the wake signal raised reaches, by worker steps alone, exactly the
state `wakeCycle` describes, and is stuck there until the next
`FlagWriter` call. -/
theorem wakeCycle_runWorker (s : MState) (hpc : s.pc = WPC.blocked) (hsem : s.sem = true) :
    ∃ n t, runWorker s n = t ∧ wakeCycle s = some t ∧ workerStep t = none := by
  obtain ⟨n, hn⟩ := scan_machine s.writers [] false (s.wakes + 1) s.trace
  have hstep : workerStep s = some ⟨s.writers, false, .scanning 0, s.wakes + 1, s.trace⟩ := by
    unfold workerStep
    rw [hpc, hsem]
    rfl
  refine ⟨n + 1, _, ?_, wakeCycle_of_blocked s hpc hsem, rfl⟩
  rw [runWorker_step _ _ n hstep]
  exact hn

/-! ## Claim theorems -/

/-- C1 (coalescing): starting from a state in which the worker is blocked
and has consumed the wake signal, any sequence of `FlagWriter` calls — on
the same or different handles, at least one of them in range — leaves the
binary semaphore raised (raised, not counted: N calls are
indistinguishable from one). The single wake cycle that consumes it
increments the wake count exactly once, appends to the trace one
execution for each entry whose pending flag is set — exactly once per
flagged entry, not once per call — clears every flag, and leaves the
semaphore down and the worker blocked, so no further wake can happen
without a new `FlagWriter` call. -/
theorem coalescing (s : MState) (fs : List Nat)
    (hpc : s.pc = WPC.blocked) (_hsem : s.sem = false)
    (hvalid : ∃ i ∈ fs, i < s.writers.length) :
    (fs.foldl FlagWriter s).sem = true ∧
    ∃ t, wakeCycle (fs.foldl FlagWriter s) = some t ∧
      t.wakes = s.wakes + 1 ∧
      t.trace = s.trace ++ (scanFrom 0 (fs.foldl FlagWriter s).writers).2 ∧
      (∀ i, List.count i (scanFrom 0 (fs.foldl FlagWriter s).writers).2 =
        if entryFlag (fs.foldl FlagWriter s).writers i then 1 else 0) ∧
      (∀ e ∈ t.writers, e.flag = false) ∧
      t.sem = false ∧ t.pc = WPC.blocked ∧ wakeCycle t = none := by
  have hpres := flagFold_preserve fs s
  have hsem' : (fs.foldl FlagWriter s).sem = true := flagFold_sem fs s (Or.inl hvalid)
  have hpc' : (fs.foldl FlagWriter s).pc = WPC.blocked := hpres.1.trans hpc
  refine ⟨hsem', _, wakeCycle_of_blocked _ hpc' hsem', ?_, ?_, ?_, ?_, rfl, rfl, rfl⟩
  · show (fs.foldl FlagWriter s).wakes + 1 = s.wakes + 1
    rw [hpres.2.1]
  · show (fs.foldl FlagWriter s).trace ++ _ = s.trace ++ _
    rw [hpres.2.2.1]
  · intro i
    have := scanFrom_count (fs.foldl FlagWriter s).writers 0 i
    simpa using this
  · exact scanFrom_result_flag (fs.foldl FlagWriter s).writers 0

theorem coalescing_witness :
    ((⟨[⟨false, 7⟩, ⟨false, 8⟩], false, WPC.blocked, 0, []⟩ : MState).pc = WPC.blocked) ∧
    ((⟨[⟨false, 7⟩, ⟨false, 8⟩], false, WPC.blocked, 0, []⟩ : MState).sem = false) ∧
    (∃ i ∈ [0, 0, 0],
      i < (⟨[⟨false, 7⟩, ⟨false, 8⟩], false, WPC.blocked, 0, []⟩ : MState).writers.length) ∧
    (([0, 0, 0].foldl FlagWriter ⟨[⟨false, 7⟩, ⟨false, 8⟩], false, WPC.blocked, 0, []⟩).sem
        = true ∧
      ∃ t, wakeCycle ([0, 0, 0].foldl FlagWriter
            ⟨[⟨false, 7⟩, ⟨false, 8⟩], false, WPC.blocked, 0, []⟩) = some t ∧
        t.wakes = (⟨[⟨false, 7⟩, ⟨false, 8⟩], false, WPC.blocked, 0, []⟩ : MState).wakes + 1 ∧
        t.trace = (⟨[⟨false, 7⟩, ⟨false, 8⟩], false, WPC.blocked, 0, []⟩ : MState).trace ++
          (scanFrom 0 ([0, 0, 0].foldl FlagWriter
            ⟨[⟨false, 7⟩, ⟨false, 8⟩], false, WPC.blocked, 0, []⟩).writers).2 ∧
        (∀ i, List.count i (scanFrom 0 ([0, 0, 0].foldl FlagWriter
              ⟨[⟨false, 7⟩, ⟨false, 8⟩], false, WPC.blocked, 0, []⟩).writers).2 =
          if entryFlag ([0, 0, 0].foldl FlagWriter
              ⟨[⟨false, 7⟩, ⟨false, 8⟩], false, WPC.blocked, 0, []⟩).writers i
          then 1 else 0) ∧
        (∀ e ∈ t.writers, e.flag = false) ∧
        t.sem = false ∧ t.pc = WPC.blocked ∧ wakeCycle t = none) :=
  ⟨rfl, rfl, ⟨0, by decide, by decide⟩,
    coalescing ⟨[⟨false, 7⟩, ⟨false, 8⟩], false, WPC.blocked, 0, []⟩ [0, 0, 0]
      rfl rfl ⟨0, by decide, by decide⟩⟩

/-- C3 counterexample: three registered actions, all pending, where the
second throws. The scan invokes the first and second writers only — the
third pending registration is never executed — and the exception escapes
the `for` loop, which has no per-entry catch, terminating the dispatch
task: the loop does not continue on future scans. This refutes the claim
that every other pending registration still executes and that the loop
keeps running. -/
theorem failure_isolation_cex :
    (scanExcFrom 0 [⟨true, 0, false⟩, ⟨true, 1, true⟩, ⟨true, 2, false⟩]).1 = [0, 1] ∧
    2 ∉ (scanExcFrom 0 [⟨true, 0, false⟩, ⟨true, 1, true⟩, ⟨true, 2, false⟩]).1 ∧
    (scanExcFrom 0 [⟨true, 0, false⟩, ⟨true, 1, true⟩, ⟨true, 2, false⟩]).2.1 = true := by
  decide

theorem flaggedIdx_lt : ∀ (ws : List EWriterEntry) (k m : Nat),
    m ∈ flaggedIdx k ws → m < k + ws.length := by
  intro ws
  induction ws with
  | nil => intro k m h; simp [flaggedIdx] at h
  | cons e es ih =>
    intro k m h
    cases he : e.flag with
    | true =>
      simp [flaggedIdx, he] at h
      rcases h with rfl | h
      · simp
      · have := ih (k + 1) m h
        simp at this ⊢
        omega
    | false =>
      simp [flaggedIdx, he] at h
      have := ih (k + 1) m h
      simp at this ⊢
      omega

theorem scanExcFrom_throw : ∀ (ws : List EWriterEntry) (j k : Nat),
    throwingAt ws j = true → (∀ i < j, throwingAt ws i = false) →
    (scanExcFrom k ws).1 = flaggedIdx k (ws.take (j + 1)) ∧
    (scanExcFrom k ws).2.1 = true := by
  intro ws
  induction ws with
  | nil =>
    intro j k hj _
    simp [throwingAt, List.getD] at hj
  | cons e es ih =>
    intro j k hj hfirst
    cases j with
    | zero =>
      have hj' : e.flag = true ∧ e.throws = true := by
        simpa [throwingAt] using hj
      simp [scanExcFrom, hj'.1, hj'.2, flaggedIdx]
    | succ j =>
      have h0 : throwingAt (e :: es) 0 = false := hfirst 0 (Nat.succ_pos j)
      have h0' : e.flag = true → e.throws = false := by
        simpa [throwingAt] using h0
      have hjs : throwingAt es j = true := by
        simpa [throwingAt] using hj
      have hfirst' : ∀ i < j, throwingAt es i = false := by
        intro i hi
        have := hfirst (i + 1) (Nat.succ_lt_succ hi)
        simpa [throwingAt] using this
      have IH := ih j (k + 1) hjs hfirst'
      cases he : e.flag with
      | true =>
        have ht : e.throws = false := h0' he
        simp [scanExcFrom, he, ht, flaggedIdx, IH.1, IH.2]
      | false =>
        simp [scanExcFrom, he, flaggedIdx, IH.1, IH.2]

/-- C3 amended: the dispatch loop contains no per-entry catch. When the
pending entry at index j is the first whose writer throws, the scan
executes the pending entries up to and including j (earlier indices are
unaffected by the later failure), but no pending registration at an index
beyond j is executed in that scan, and the exception escapes the loop:
the dispatch task terminates and runs no future scan. Failures that a
writer reports by returning normally are invisible to the loop and
isolate trivially (every pending entry is invoked, as the coalescing
theorem's scan shows); thrown failures are not contained. -/
theorem failure_isolation_amended (ws : List EWriterEntry) (j : Nat)
    (hj : throwingAt ws j = true) (hfirst : ∀ i < j, throwingAt ws i = false) :
    (scanExcFrom 0 ws).1 = flaggedIdx 0 (ws.take (j + 1)) ∧
    (∀ m ∈ (scanExcFrom 0 ws).1, m < j + 1) ∧
    (scanExcFrom 0 ws).2.1 = true := by
  have h := scanExcFrom_throw ws j 0 hj hfirst
  refine ⟨h.1, ?_, h.2⟩
  intro m hm
  rw [h.1] at hm
  have hlt := flaggedIdx_lt (ws.take (j + 1)) 0 m hm
  have hlen : (ws.take (j + 1)).length ≤ j + 1 := by
    simp [List.length_take]
  omega

theorem failure_isolation_amended_witness :
    (throwingAt [⟨true, 0, false⟩, ⟨true, 1, true⟩, ⟨true, 2, false⟩] 1 = true) ∧
    (∀ i < 1, throwingAt [⟨true, 0, false⟩, ⟨true, 1, true⟩, ⟨true, 2, false⟩] i = false) ∧
    ((scanExcFrom 0 [⟨true, 0, false⟩, ⟨true, 1, true⟩, ⟨true, 2, false⟩]).1
        = flaggedIdx 0 ([⟨true, 0, false⟩, ⟨true, 1, true⟩,
            (⟨true, 2, false⟩ : EWriterEntry)].take (1 + 1)) ∧
      (∀ m ∈ (scanExcFrom 0 [⟨true, 0, false⟩, ⟨true, 1, true⟩, ⟨true, 2, false⟩]).1,
        m < 1 + 1) ∧
      (scanExcFrom 0 [⟨true, 0, false⟩, ⟨true, 1, true⟩, ⟨true, 2, false⟩]).2.1 = true) :=
  ⟨by decide, by decide,
    failure_isolation_amended [⟨true, 0, false⟩, ⟨true, 1, true⟩, ⟨true, 2, false⟩] 1
      (by decide) (by decide)⟩

/-- C4 (invalid handle safety): `FlagWriter` with an index at or past the
number of registrations is a complete no-op: it raises no error, changes
no pending flag, does not raise the wake signal, and leaves the entire
coordinator state unchanged. -/
theorem flagWriter_invalid_noop (s : MState) (idx : Nat)
    (h : s.writers.length ≤ idx) : FlagWriter s idx = s := by
  unfold FlagWriter
  rw [if_pos h]

theorem flagWriter_invalid_noop_witness :
    ((⟨[⟨false, 5⟩], false, WPC.blocked, 0, []⟩ : MState).writers.length ≤ 3) ∧
    FlagWriter ⟨[⟨false, 5⟩], false, WPC.blocked, 0, []⟩ 3
      = ⟨[⟨false, 5⟩], false, WPC.blocked, 0, []⟩ :=
  ⟨by decide, flagWriter_invalid_noop ⟨[⟨false, 5⟩], false, WPC.blocked, 0, []⟩ 3 (by decide)⟩

theorem regIndices_gen : ∀ (as : List Nat) (ws : List WriterEntry),
    regIndices ws as = List.range' ws.length as.length := by
  intro as
  induction as with
  | nil => intro ws; rfl
  | cons a rest ih =>
    intro ws
    simp only [regIndices]
    rw [ih]
    have h2 : (registerWriter ws a).2 = ws.length := by simp [registerWriter]
    have h1 : (registerWriter ws a).1.length = ws.length + 1 := by simp [registerWriter]
    simp [h2, h1, List.range'_succ]

theorem regAll_writer : ∀ (as : List Nat) (ws : List WriterEntry),
    (as.foldl (fun acc w => (registerWriter acc w).1) ws).map WriterEntry.writer
      = ws.map WriterEntry.writer ++ as := by
  intro as
  induction as with
  | nil => intro ws; simp
  | cons a rest ih =>
    intro ws
    simp only [List.foldl_cons]
    rw [ih]
    simp [registerWriter, mkWriterEntry]

theorem realloc_writer (ws : List WriterEntry) (w : Nat) :
    (reallocRegisterWriter ws w).1.map WriterEntry.writer
      = ws.map WriterEntry.writer ++ [w] := by
  simp [reallocRegisterWriter, moveWriterEntry, mkWriterEntry, List.map_map, Function.comp]

/-- C5 (index stability): successive `RegisterWriter` calls return the
strictly increasing indices 0, 1, 2, …; each call returns the previous
registry length; the registry is append-only; and neither registration
(with or without reallocation) nor flagging ever changes which writer
sits at an existing index, so a later `FlagWriter(i)` always refers to the
writer passed to the i-th registration. -/
theorem register_index_stability (as : List Nat) (ws : List WriterEntry) (w : Nat) (j : Nat) :
    regIndices [] as = List.range as.length ∧
    (regAll as).map WriterEntry.writer = as ∧
    (registerWriter ws w).2 = ws.length ∧
    (registerWriter ws w).1 = ws ++ [mkWriterEntry w] ∧
    (reallocRegisterWriter ws w).1.map WriterEntry.writer
      = ws.map WriterEntry.writer ++ [w] ∧
    (setFlagAt ws j).map WriterEntry.writer = ws.map WriterEntry.writer := by
  refine ⟨?_, ?_, by simp [registerWriter], rfl, realloc_writer ws w, setFlagAt_writer ws j⟩
  · rw [regIndices_gen, List.range_eq_range']
    rfl
  · unfold regAll
    rw [regAll_writer]
    simp

/-- C6 (moves discard pending flags): the `WriterEntry` move constructor
delegates to the main constructor, so a move-constructed copy of an entry
whose pending flag is set has its flag false (only the writer closure is
carried over); consequently, when `RegisterWriter` makes the vector
reallocate, every entry of the resulting registry — in particular every
previously registered one — ends up with its pending flag false. -/
theorem move_ctor_resets_pending (e : WriterEntry) (_he : e.flag = true)
    (ws : List WriterEntry) (w : Nat) :
    (moveWriterEntry e).flag = false ∧ (moveWriterEntry e).writer = e.writer ∧
    ∀ e' ∈ (reallocRegisterWriter ws w).1, e'.flag = false := by
  refine ⟨rfl, rfl, ?_⟩
  intro e' h
  simp [reallocRegisterWriter] at h
  rcases h with ⟨x, _, rfl⟩ | rfl
  · rfl
  · rfl

theorem move_ctor_resets_pending_witness :
    ((⟨true, 9⟩ : WriterEntry).flag = true) ∧
    ((moveWriterEntry ⟨true, 9⟩).flag = false ∧
      (moveWriterEntry ⟨true, 9⟩).writer = (⟨true, 9⟩ : WriterEntry).writer ∧
      ∀ e' ∈ (reallocRegisterWriter [⟨true, 1⟩, ⟨false, 2⟩] 3).1, e'.flag = false) :=
  ⟨rfl, move_ctor_resets_pending ⟨true, 9⟩ rfl [⟨true, 1⟩, ⟨false, 2⟩] 3⟩

/-- C10 (default deserialize is "not supported"): the default
`DeserializeFromJSON` body returns false for every input document and
every object state, and returns the object state completely unchanged. -/
theorem default_deserialize_not_supported {σ : Type} (s : σ) (doc : JVal) :
    DeserializeFromJSON s doc = (false, s) := rfl

/-- C2 (lost update): evaluating the coordinator on the interleaving in
which `FlagWriter(0)` is called strictly after the worker has begun but
before it has finished executing entry 0's writer. The writer runs once
(trace `[0]`); the worker's plain `entry.flag = false` after the run
clobbers the concurrently set flag; the worker wakes a second time from
the second `xSemaphoreGive` but finds no flag set, blocks with the
semaphore down, and — as the final conjunct shows — never executes the
re-flagged action no matter how long it keeps running: the marked request
is lost, contradicting the no-lost-update property the spec states. -/
theorem lost_update_bug :
    (runSched lostUpdateState0 lostUpdateSched).trace = [0] ∧
    (runSched lostUpdateState0 lostUpdateSched).wakes = 2 ∧
    entryFlag (runSched lostUpdateState0 lostUpdateSched).writers 0 = false ∧
    workerStep (runSched lostUpdateState0 lostUpdateSched) = none ∧
    ∀ n, (runWorker (runSched lostUpdateState0 lostUpdateSched) n).trace = [0] := by
  refine ⟨by decide, by decide, by decide, by decide, fun n => ?_⟩
  rw [runWorker_stuck (runSched lostUpdateState0 lostUpdateSched) (by decide) n]
  decide

theorem crgbPackVal_eq (c : CRGB) (h : c.wf) :
    crgbPackVal c = c.r * 65536 + c.g * 256 + c.b := by
  obtain ⟨hr, hg, hb⟩ := h
  unfold crgbPackVal
  rw [Nat.shiftLeft_eq, Nat.shiftLeft_eq]
  have h16 : (2 : Nat) ^ 16 = 65536 := by norm_num
  have h8 : (2 : Nat) ^ 8 = 256 := by norm_num
  have e1 : c.r * 2 ^ 16 ||| c.g * 2 ^ 8 = c.r * 65536 + c.g * 256 := by
    have hlt : c.g * 2 ^ 8 < 2 ^ 16 := by rw [h8, h16]; omega
    calc c.r * 2 ^ 16 ||| c.g * 2 ^ 8
        = 2 ^ 16 * c.r ||| c.g * 2 ^ 8 := by rw [Nat.mul_comm]
      _ = 2 ^ 16 * c.r + c.g * 2 ^ 8 := (Nat.mul_add_lt_is_or hlt c.r).symm
      _ = c.r * 65536 + c.g * 256 := by rw [h16, h8]; ring
  rw [e1]
  have e2 : c.r * 65536 + c.g * 256 ||| c.b = c.r * 65536 + c.g * 256 + c.b := by
    have hx : c.r * 65536 + c.g * 256 = 2 ^ 8 * (c.r * 256 + c.g) := by rw [h8]; ring
    have hlt2 : c.b < 2 ^ 8 := by rw [h8]; omega
    rw [hx, (Nat.mul_add_lt_is_or hlt2 (c.r * 256 + c.g)).symm]
  rw [e2]
  exact Nat.mod_eq_of_lt (by omega)

theorem crgbOfUInt32_wf (v : Nat) : (crgbOfUInt32 v).wf :=
  ⟨Nat.mod_lt _ (by norm_num), Nat.mod_lt _ (by norm_num), Nat.mod_lt _ (by norm_num)⟩

theorem crgb_unpack_pack (c : CRGB) (h : c.wf) : crgbOfUInt32 (crgbPackVal c) = c := by
  obtain ⟨hr, hg, hb⟩ := h
  rw [crgbPackVal_eq c ⟨hr, hg, hb⟩]
  unfold crgbOfUInt32
  rw [Nat.shiftRight_eq_div_pow, Nat.shiftRight_eq_div_pow]
  have h16 : (2 : Nat) ^ 16 = 65536 := by norm_num
  have h8 : (2 : Nat) ^ 8 = 256 := by norm_num
  rw [h16, h8]
  cases c with
  | mk r g b =>
    simp only [CRGB.mk.injEq] at *
    refine ⟨by omega, by omega, by omega⟩

theorem crgb_pack_unpack (v : Nat) (hv : v < 16777216) :
    crgbPackVal (crgbOfUInt32 v) = v := by
  rw [crgbPackVal_eq _ (crgbOfUInt32_wf v)]
  unfold crgbOfUInt32
  simp only
  rw [Nat.shiftRight_eq_div_pow, Nat.shiftRight_eq_div_pow]
  have h16 : (2 : Nat) ^ 16 = 65536 := by norm_num
  have h8 : (2 : Nat) ^ 8 = 256 := by norm_num
  rw [h16, h8]
  omega

/-- The pack/unpack round trip through the JSON value: serializing a
well-formed color and deserializing the result restores the color. -/
theorem crgb_json_roundtrip (c : CRGB) (h : c.wf) :
    CRGB.fromJson (CRGB.toJson c) = c := by
  show crgbOfUInt32 (crgbPackVal c % 4294967296) = c
  have hlt : crgbPackVal c < 4294967296 := by
    rw [crgbPackVal_eq c h]
    obtain ⟨hr, hg, hb⟩ := h
    omega
  rw [Nat.mod_eq_of_lt hlt]
  exact crgb_unpack_pack c h

/-- C7 (color round-trip): for channels in 0..255, the packed value is the
24-bit integer `(r<<16)|(g<<8)|b` (equivalently `r*65536 + g*256 + b`),
lies below 2^24, and unpacking restores the channels exactly; unpacking
any value below 2^24 yields well-formed channels that pack back to the
same value (so pack/unpack is a total, lossless bijection between
3-channel colors and 0..2^24-1); and the bijection is order-preserving:
packed values compare exactly as the channel triples compare
lexicographically. -/
theorem crgb_color_roundtrip (c d : CRGB) (v : Nat)
    (hc : c.wf) (hd : d.wf) (hv : v < 16777216) :
    crgbPackVal c = c.r * 65536 + c.g * 256 + c.b ∧
    crgbPackVal c < 16777216 ∧
    crgbOfUInt32 (crgbPackVal c) = c ∧
    CRGB.fromJson (CRGB.toJson c) = c ∧
    (crgbOfUInt32 v).wf ∧
    crgbPackVal (crgbOfUInt32 v) = v ∧
    (crgbPackVal c < crgbPackVal d ↔ crgbLexLt c d) := by
  obtain ⟨hr, hg, hb⟩ := hc
  obtain ⟨hr', hg', hb'⟩ := hd
  refine ⟨crgbPackVal_eq c ⟨hr, hg, hb⟩, ?_, crgb_unpack_pack c ⟨hr, hg, hb⟩,
    crgb_json_roundtrip c ⟨hr, hg, hb⟩, crgbOfUInt32_wf v, crgb_pack_unpack v hv, ?_⟩
  · rw [crgbPackVal_eq c ⟨hr, hg, hb⟩]
    omega
  · rw [crgbPackVal_eq c ⟨hr, hg, hb⟩, crgbPackVal_eq d ⟨hr', hg', hb'⟩]
    unfold crgbLexLt
    omega

theorem crgb_color_roundtrip_witness :
    (CRGB.wf ⟨1, 2, 3⟩) ∧ (CRGB.wf ⟨1, 2, 4⟩) ∧ (65537 < 16777216) ∧
    (crgbPackVal ⟨1, 2, 3⟩ = 1 * 65536 + 2 * 256 + 3 ∧
      crgbPackVal ⟨1, 2, 3⟩ < 16777216 ∧
      crgbOfUInt32 (crgbPackVal ⟨1, 2, 3⟩) = ⟨1, 2, 3⟩ ∧
      CRGB.fromJson (CRGB.toJson ⟨1, 2, 3⟩) = ⟨1, 2, 3⟩ ∧
      (crgbOfUInt32 65537).wf ∧
      crgbPackVal (crgbOfUInt32 65537) = 65537 ∧
      (crgbPackVal ⟨1, 2, 3⟩ < crgbPackVal ⟨1, 2, 4⟩ ↔ crgbLexLt ⟨1, 2, 3⟩ ⟨1, 2, 4⟩)) :=
  ⟨by decide, by decide, by decide,
    crgb_color_roundtrip ⟨1, 2, 3⟩ ⟨1, 2, 4⟩ 65537 (by decide) (by decide) (by decide)⟩

/-- Deserializing the serialized form of a well-formed 16-entry palette
restores it entry-for-entry. -/
theorem palette_json_roundtrip (p : CRGBPalette16)
    (hlen : p.entries.length = 16) (hwf : ∀ c ∈ p.entries, c.wf) :
    paletteFromJson (paletteToJson p) = p := by
  unfold paletteFromJson paletteToJson
  have hmap : (JVal.asArr (JVal.arr (p.entries.map CRGB.toJson))).map CRGB.fromJson
      = p.entries := by
    show (p.entries.map CRGB.toJson).map CRGB.fromJson = p.entries
    rw [List.map_map]
    have hstep : ∀ x ∈ p.entries, (CRGB.fromJson ∘ CRGB.toJson) x = x :=
      fun x hx => crgb_json_roundtrip x (hwf x hx)
    rw [List.map_congr_left hstep]
    simp
  rw [hmap, List.take_append_of_le_length (by rw [hlen]), List.take_of_length_le (by rw [hlen])]

/-- C8 (gradient shape check and round-trip): `checkJson` accepts a value
exactly when it is an array of exactly 16 entries — it rejects 15- and
17-entry arrays and non-array values — and for every well-formed 16-entry
palette, serializing and converting back reconstructs the palette
entry-for-entry in index order. -/
theorem palette_shape_roundtrip (src : JVal) (p : CRGBPalette16)
    (hlen : p.entries.length = 16) (hwf : ∀ c ∈ p.entries, c.wf) :
    (paletteCheckJson src = true ↔ ∃ xs, src = JVal.arr xs ∧ xs.length = 16) ∧
    paletteCheckJson (JVal.arr (List.replicate 15 JVal.null)) = false ∧
    paletteCheckJson (JVal.arr (List.replicate 17 JVal.null)) = false ∧
    paletteCheckJson JVal.null = false ∧
    paletteCheckJson (paletteToJson p) = true ∧
    paletteFromJson (paletteToJson p) = p := by
  refine ⟨?_, by decide, by decide, by decide, ?_, palette_json_roundtrip p hlen hwf⟩
  · cases src with
    | null => simp [paletteCheckJson, JVal.isArr]
    | num n => simp [paletteCheckJson, JVal.isArr]
    | arr xs => simp [paletteCheckJson, JVal.isArr, JVal.asArr]
  · simp [paletteCheckJson, paletteToJson, JVal.isArr, JVal.asArr, hlen]

theorem palette_shape_roundtrip_witness :
    ((CRGBPalette16.mk (List.replicate 8 ⟨1, 2, 3⟩ ++
        List.replicate 8 ⟨251, 252, 253⟩)).entries.length = 16) ∧
    (∀ c ∈ (CRGBPalette16.mk (List.replicate 8 ⟨1, 2, 3⟩ ++
        List.replicate 8 ⟨251, 252, 253⟩)).entries, c.wf) ∧
    ((paletteCheckJson (JVal.arr (List.replicate 16 (JVal.num 0))) = true ↔
        ∃ xs, JVal.arr (List.replicate 16 (JVal.num 0)) = JVal.arr xs ∧ xs.length = 16) ∧
      paletteCheckJson (JVal.arr (List.replicate 15 JVal.null)) = false ∧
      paletteCheckJson (JVal.arr (List.replicate 17 JVal.null)) = false ∧
      paletteCheckJson JVal.null = false ∧
      paletteCheckJson (paletteToJson (CRGBPalette16.mk (List.replicate 8 ⟨1, 2, 3⟩ ++
        List.replicate 8 ⟨251, 252, 253⟩))) = true ∧
      paletteFromJson (paletteToJson (CRGBPalette16.mk (List.replicate 8 ⟨1, 2, 3⟩ ++
        List.replicate 8 ⟨251, 252, 253⟩))) = CRGBPalette16.mk (List.replicate 8 ⟨1, 2, 3⟩ ++
        List.replicate 8 ⟨251, 252, 253⟩)) :=
  ⟨by decide, by decide,
    palette_shape_roundtrip (JVal.arr (List.replicate 16 (JVal.num 0)))
      (CRGBPalette16.mk (List.replicate 8 ⟨1, 2, 3⟩ ++ List.replicate 8 ⟨251, 252, 253⟩))
      (by decide) (by decide)⟩

/-- C9 counterexample: `fromJson` does not guard the number of entries it
writes. On a 17-entry input array it performs a write at destination
index 16, one past the end of the 16-slot `colors` buffer — refuting the
claim that for arrays of any length it never writes past the 16-slot
destination. (With fewer than 16 entries it does not fail either: it
simply returns a palette, as `paletteFromJson` is total.) -/
theorem palette_fromJson_unguarded_cex :
    16 ∈ paletteFromJsonWrites (JVal.arr (List.replicate 17 (JVal.num 0))) ∧
    ¬ (∀ i ∈ paletteFromJsonWrites (JVal.arr (List.replicate 17 (JVal.num 0))), i < 16) := by
  decide

/-- C9 amended: `fromJson` itself performs no explicit count guard and
never fails; the exactly-16 entry-count guard lives in `checkJson`. For
every input accepted by `checkJson`, `fromJson` writes exactly the
destination slots 0..15 (all within the 16-slot buffer) and reads exactly
the 16 available source entries; in general it performs one write per
source entry at consecutive indices, so its writes stay within the buffer
precisely when the source array has at most 16 entries. -/
theorem palette_fromJson_guard_amended (src : JVal) (h : paletteCheckJson src = true) :
    paletteFromJsonWrites src = List.range 16 ∧
    (∀ i ∈ paletteFromJsonWrites src, i < 16) ∧
    paletteFromJson src = ⟨src.asArr.map CRGB.fromJson⟩ ∧
    (∀ t : JVal, (∀ i ∈ paletteFromJsonWrites t, i < 16) ↔ t.asArr.length ≤ 16) := by
  have hlen : src.asArr.length = 16 := by
    have h' := h
    unfold paletteCheckJson at h'
    simp at h'
    exact h'.2
  refine ⟨by rw [paletteFromJsonWrites, hlen], ?_, ?_, ?_⟩
  · intro i hi
    rw [paletteFromJsonWrites, hlen] at hi
    exact List.mem_range.mp hi
  · unfold paletteFromJson
    rw [List.take_append_of_le_length (by rw [List.length_map, hlen]),
      List.take_of_length_le (by rw [List.length_map, hlen])]
  · intro t
    constructor
    · intro hall
      by_contra hgt
      have h16 : 16 ∈ paletteFromJsonWrites t := by
        rw [paletteFromJsonWrites]
        exact List.mem_range.mpr (by omega)
      exact absurd (hall 16 h16) (by omega)
    · intro hle i hi
      rw [paletteFromJsonWrites] at hi
      have := List.mem_range.mp hi
      omega

theorem palette_fromJson_guard_amended_witness :
    (paletteCheckJson (JVal.arr (List.replicate 16 (JVal.num 65793))) = true) ∧
    (paletteFromJsonWrites (JVal.arr (List.replicate 16 (JVal.num 65793))) = List.range 16 ∧
      (∀ i ∈ paletteFromJsonWrites (JVal.arr (List.replicate 16 (JVal.num 65793))), i < 16) ∧
      paletteFromJson (JVal.arr (List.replicate 16 (JVal.num 65793)))
        = ⟨(JVal.arr (List.replicate 16 (JVal.num 65793))).asArr.map CRGB.fromJson⟩ ∧
      (∀ t : JVal, (∀ i ∈ paletteFromJsonWrites t, i < 16) ↔ t.asArr.length ≤ 16)) :=
  ⟨by decide, palette_fromJson_guard_amended (JVal.arr (List.replicate 16 (JVal.num 65793)))
    (by decide)⟩

end NightDriver
